import Mathlib

/-!
Verification of the bristle-bot on-robot control core.

This file gives a shallow embedding, in Lean 4, of the parts of the
bristle-bot firmware that the specification claims are about, and proves
or refutes each claim against that embedding.

Modelling conventions:
* C floats are modelled as real numbers (or as rationals where every
  operation involved is exact rational arithmetic).
* The implicit C conversion from a floating value to a long truncates
  toward zero; it is modelled explicitly by cLong below.
* C integer division on long operands truncates toward zero; it is
  modelled by Int.tdiv (equal to Lean division on nonnegative operands).
* Storing into a uint8_t reduces the value modulo 256.
* millis() values are natural numbers; where the firmware performs
  uint32_t arithmetic whose wraparound is observable, the reduction
  modulo 2^32 is written out explicitly.
* Hardware and library calls (radio, microphone, motor pins) are
  modelled as explicit inputs and emitted action lists; the state the
  firmware keeps in static variables is threaded explicitly.
-/

namespace BristleBot

/-- Truncation toward zero of a real number, the semantics of the C cast
from float to long. -/
noncomputable def cLong (x : ℝ) : ℤ := if 0 ≤ x then ⌊x⌋ else ⌈x⌉

/-- Truncation toward zero of a rational, the semantics of the C cast
from float to long, for the code paths modelled in exact rational
arithmetic. -/
def cLongQ (x : ℚ) : ℤ := if 0 ≤ x then ⌊x⌋ else ⌈x⌉

/-! ## Signal Sampler (src/unnamed/part_009)

Per-beacon ring buffer of raw RSSI readings.  The source keeps, per
beacon i: an int array rssiBuffers[i] of length windowSize = 7, a write
cursor rssiIndexes[i], and a flag buffersFilled[i].  The array is
modelled as a function from slot number to reading (slots outside 0..6
are never read or written starting from the all-zero initial array). -/

/-- Ring-buffer capacity: const int windowSize = 7 in part_009. -/
def windowSize : ℕ := 7

/-- State of one beacon ring buffer: rssiBuffers[i], rssiIndexes[i],
buffersFilled[i] from part_009. -/
structure BeaconBuf where
  buf : ℕ → ℤ
  index : ℕ
  filled : Bool

/-- Initial state: arrays zero-initialised, cursors 0, flags false. -/
def BeaconBuf.init : BeaconBuf := ⟨fun _ => 0, 0, false⟩

/-- insertRSSI (part_009 lines 41..47): write at the cursor, advance the
cursor modulo windowSize, set filled when the cursor wraps to 0. -/
def insertRSSI (s : BeaconBuf) (rssi : ℤ) : BeaconBuf :=
  let buf := Function.update s.buf s.index rssi
  let index := (s.index + 1) % windowSize
  { buf := buf, index := index, filled := s.filled || (index == 0) }

/-- The number of valid entries, the count variable of avgRSSI and of the
readiness loop in updateLocalisation: buffersFilled ? windowSize :
rssiIndexes. -/
def BeaconBuf.count (s : BeaconBuf) : ℕ :=
  if s.filled then windowSize else s.index

/-- avgRSSI (part_009 lines 49..58): arithmetic mean of the first count
slots, or the sentinel -100.0 when count is zero.  float(sum)/count is
exact rational division. -/
def avgRSSI (s : BeaconBuf) : ℚ :=
  if s.count = 0 then -100
  else (↑(∑ j ∈ Finset.range s.count, s.buf j) : ℚ) / (s.count : ℚ)

/-- Folding a whole list of readings into a beacon buffer, oldest first:
the sequence of record operations the claims quantify over. -/
def recordList (xs : List ℤ) : BeaconBuf :=
  xs.foldl insertRSSI BeaconBuf.init

/-- The last k elements of a list (the most recent k insertions when the
list is read oldest first). -/
def lastN (xs : List ℤ) (k : ℕ) : List ℤ := xs.drop (xs.length - k)

/-- The mean of the last min(n, 7) readings as the specification words
it, with the sentinel -100 for the empty sequence.  This is the
spec-side description that avgRSSI is compared against. -/
def specAverage (xs : List ℤ) : ℚ :=
  if xs.length = 0 then -100
  else
    let k := min xs.length windowSize
    ((lastN xs k).sum : ℚ) / (k : ℚ)

/-- Invariant of the ring buffer after folding in a list of readings:
the cursor is the insertion count modulo 7, the filled flag records
whether at least 7 readings arrived, and each of the last min(n,7)
readings sits in the slot given by its insertion position modulo 7. -/
theorem recordList_invariant (xs : List ℤ) :
    (recordList xs).index = xs.length % windowSize ∧
    ((recordList xs).filled = true ↔ windowSize ≤ xs.length) ∧
    (∀ m : ℕ, (hm : m < xs.length) → xs.length ≤ m + windowSize →
      (recordList xs).buf (m % windowSize) = xs[m]) := by
  induction xs using List.reverseRecOn with
  | nil => simp [recordList, BeaconBuf.init, windowSize]
  | append_singleton ys a ih =>
    obtain ⟨hidx, hfill, hbuf⟩ := ih
    have hstep : recordList (ys ++ [a]) = insertRSSI (recordList ys) a := by
      simp [recordList, List.foldl_append]
    set n := ys.length with hn
    have hlen : (ys ++ [a]).length = n + 1 := by simp [hn]
    refine ⟨?_, ?_, ?_⟩
    · rw [hstep]
      simp only [insertRSSI, hidx, hlen, windowSize]
      omega
    · rw [hstep]
      simp only [insertRSSI, hidx, hlen, windowSize, Bool.or_eq_true,
        beq_iff_eq, hfill]
      omega
    · intro m hm hge
      rw [hstep]
      simp only [hlen, windowSize] at hm hge
      simp only [insertRSSI, hidx, windowSize] at hbuf ⊢
      rcases Nat.lt_or_ge m n with hmn | hmn
      · have hne : m % 7 ≠ n % 7 := by omega
        have hv := hbuf m hmn (by omega)
        rw [Function.update_noteq hne, hv]
        exact (List.getElem_append_left hmn).symm
      · have hmeq : m = n := by omega
        have h1 : m % 7 = n % 7 := by omega
        rw [h1, Function.update_same]
        simp [hmeq]

/-- The valid-entry count after a record sequence is min(n, capacity). -/
theorem recordList_count (xs : List ℤ) :
    (recordList xs).count = min xs.length windowSize := by
  obtain ⟨hidx, hfill, -⟩ := recordList_invariant xs
  rcases Nat.lt_or_ge xs.length windowSize with h | h
  · have hf : (recordList xs).filled = false := by
      rcases Bool.eq_false_or_eq_true (recordList xs).filled with hh | hh
      · exact absurd (hfill.mp hh) (by omega)
      · exact hh
    unfold BeaconBuf.count
    rw [hf]
    simp only [Bool.false_eq_true, if_false, hidx]
    simp only [windowSize] at *
    omega
  · unfold BeaconBuf.count
    rw [hfill.mpr h]
    simp only [if_true]
    omega

/-- The sum over the valid window of the ring buffer equals the sum of
the last min(n, capacity) insertions. -/
theorem recordList_sum (xs : List ℤ) :
    (∑ j ∈ Finset.range (recordList xs).count, (recordList xs).buf j)
      = (lastN xs (min xs.length windowSize)).sum := by
  induction xs using List.reverseRecOn with
  | nil => simp [recordList, BeaconBuf.init, BeaconBuf.count, lastN]
  | append_singleton ys a ih =>
    obtain ⟨hidx, hfill, hbuf⟩ := recordList_invariant ys
    have hstep : recordList (ys ++ [a]) = insertRSSI (recordList ys) a := by
      simp [recordList, List.foldl_append]
    set n := ys.length with hn
    have hcnt : (recordList ys).count = min n windowSize := recordList_count ys
    have hcnt' : (recordList (ys ++ [a])).count = min (n + 1) windowSize := by
      rw [recordList_count]; simp [hn]
    have hbufeq : (recordList (ys ++ [a])).buf
        = Function.update (recordList ys).buf (n % windowSize) a := by
      rw [hstep]; simp [insertRSSI, hidx]
    have hL : (ys ++ [a]).length = n + 1 := by simp [hn]
    rcases Nat.lt_or_ge n windowSize with h7 | h7
    · -- buffer not yet full: the window is the whole history
      have hmin : min n windowSize = n := by omega
      have hmin' : min (n + 1) windowSize = n + 1 := by
        simp only [windowSize] at *; omega
      rw [hcnt', hbufeq, hmin']
      rw [Finset.sum_range_succ]
      have hmod : n % windowSize = n := Nat.mod_eq_of_lt h7
      have hlast : ∑ j ∈ Finset.range n,
          Function.update (recordList ys).buf (n % windowSize) a j
            = ∑ j ∈ Finset.range n, (recordList ys).buf j := by
        refine Finset.sum_congr rfl ?_
        intro j hj
        simp only [Finset.mem_range] at hj
        rw [hmod]
        exact Function.update_noteq (by omega) _ _
      rw [hlast, hmod, Function.update_same]
      rw [hcnt, hmin] at ih
      have hys : lastN ys n = ys := by
        unfold lastN
        simp [hn]
      have hfull : lastN (ys ++ [a]) (min (ys ++ [a]).length windowSize)
          = ys ++ [a] := by
        unfold lastN
        rw [hL]
        have : min (n + 1) windowSize = n + 1 := hmin'
        simp only [windowSize] at this ⊢
        rw [this]
        simp
      rw [ih, hys, hfull, List.sum_append]
      simp
    · -- buffer full: the window slides by one
      have hmin : min n windowSize = windowSize := by omega
      have hmin' : min (n + 1) windowSize = windowSize := by omega
      have hwpos : 0 < windowSize := by simp [windowSize]
      have hnlt : n - windowSize < ys.length := by
        rw [← hn]; omega
      rw [hcnt', hmin', hbufeq]
      have hminL : min (ys ++ [a]).length windowSize = windowSize := by
        rw [hL]; exact hmin'
      rw [hminL]
      have hmem : n % windowSize ∈ Finset.range windowSize :=
        Finset.mem_range.mpr (Nat.mod_lt _ hwpos)
      rw [Finset.sum_update_of_mem hmem]
      have hslot : (recordList ys).buf (n % windowSize)
          = ys.get ⟨n - windowSize, hnlt⟩ := by
        have h1 : (n - windowSize) % windowSize = n % windowSize := by
          simp only [windowSize] at *; omega
        have h2 := hbuf (n - windowSize) hnlt (by omega)
        rw [← h1, h2, List.get_eq_getElem]
      have hihsum : ∑ j ∈ Finset.range windowSize, (recordList ys).buf j
          = (lastN ys windowSize).sum := by
        rw [hcnt, hmin] at ih; exact ih
      have hdrop : lastN ys windowSize
          = ys.get ⟨n - windowSize, hnlt⟩ :: ys.drop (n - windowSize + 1) := by
        unfold lastN
        have hd := List.drop_eq_getElem_cons (l := ys) (n := n - windowSize) hnlt
        show List.drop (n - windowSize) ys
          = ys.get ⟨n - windowSize, hnlt⟩ :: List.drop (n - windowSize + 1) ys
        rw [hd, List.get_eq_getElem]
      have hdrop' : lastN (ys ++ [a]) windowSize
          = ys.drop (n - windowSize + 1) ++ [a] := by
        unfold lastN
        rw [hL]
        rw [List.drop_append_of_le_length (by rw [← hn]; omega)]
        congr 2
        simp only [windowSize] at *
        omega
      have heq : ∑ j ∈ Finset.range windowSize \ {n % windowSize}, (recordList ys).buf j
          = (lastN ys windowSize).sum - (recordList ys).buf (n % windowSize) := by
        have hsplit := Finset.sum_eq_sum_diff_singleton_add hmem ((recordList ys).buf)
        omega
      rw [heq, hdrop', hslot, hdrop, List.sum_append, List.sum_cons,
        List.sum_cons, List.sum_nil]
      ring

/-- A list of integers bounded below termwise is bounded below in sum. -/
theorem sum_ge_mul_length (l : List ℤ) (c : ℤ) (h : ∀ x ∈ l, c ≤ x) :
    c * l.length ≤ l.sum := by
  induction l with
  | nil => simp
  | cons b t ih =>
    have hb := h b (by simp)
    have ht := ih (fun x hx => h x (by simp [hx]))
    simp only [List.sum_cons, List.length_cons]
    push_cast
    linarith

/-- C3: for every sequence of record operations on one beacon ring
buffer (capacity 7), average() returns the arithmetic mean of exactly
the last min(n, 7) inserted readings; with no insertions it returns the
sentinel -100, which readings strictly above -100 can never produce. -/
theorem C3_average_window (xs : List ℤ) :
    avgRSSI (recordList xs) = specAverage xs ∧
    ((∀ r ∈ xs, (-100 : ℤ) < r) → xs ≠ [] →
      (-100 : ℚ) < avgRSSI (recordList xs)) := by
  have hcnt := recordList_count xs
  have hsum := recordList_sum xs
  have hmain : avgRSSI (recordList xs) = specAverage xs := by
    unfold avgRSSI specAverage
    by_cases h0 : xs.length = 0
    · have hxs : xs = [] := List.eq_nil_of_length_eq_zero h0
      subst hxs
      simp [recordList, BeaconBuf.init, BeaconBuf.count]
    · have hne : (recordList xs).count ≠ 0 := by
        rw [hcnt]; simp only [windowSize]; omega
      rw [if_neg hne, if_neg h0, hsum, hcnt]
  refine ⟨hmain, ?_⟩
  intro hpos hne
  rw [hmain]
  unfold specAverage
  have hlen0 : xs.length ≠ 0 := fun h => hne (List.eq_nil_of_length_eq_zero h)
  rw [if_neg hlen0]
  set k := min xs.length windowSize with hk
  have hk1 : 1 ≤ k := by
    simp only [hk, windowSize]; omega
  have hsub : ∀ r ∈ lastN xs k, (-99 : ℤ) ≤ r := by
    intro r hr
    have : r ∈ xs := List.drop_subset _ xs hr
    have := hpos r this
    omega
  have hlastlen : (lastN xs k).length = k := by
    unfold lastN
    rw [List.length_drop]
    omega
  have hsumge : (-99 : ℤ) * k ≤ (lastN xs k).sum := by
    have := sum_ge_mul_length (lastN xs k) (-99) hsub
    rw [hlastlen] at this
    exact this
  have hkpos : (0 : ℚ) < (k : ℚ) := by exact_mod_cast hk1
  have h1 : (((-99 : ℤ) * k : ℤ) : ℚ) ≤ ((lastN xs k).sum : ℚ) := by
    exact_mod_cast hsumge
  have h2 := div_le_div_of_nonneg_right h1 hkpos.le
  have h3 : (((-99 : ℤ) * k : ℤ) : ℚ) / (k : ℚ) = -99 := by
    push_cast
    field_simp
  rw [h3] at h2
  simp only []
  linarith

/-- Witness for C3 at a concrete input: two readings strictly above the
sentinel yield an average strictly above the sentinel. -/
theorem C3_average_window_witness :
    (-100 : ℚ) < avgRSSI (recordList [-50, -60]) :=
  (C3_average_window [-50, -60]).2 (by decide) (by decide)

/-! ## Trilateration Engine (src/unnamed/part_009)

Constants and the gradient-descent solve from part_009, modelled over
the reals.  smoothedX/smoothedY are initialised to NAN in the source and
the bootstrap branch tests isnan; the pair of floats is modelled as an
Option (none = NAN, the explicit no-fix-yet representation). -/

/-- const int NUM_BEACONS = 3. -/
def NUM_BEACONS : ℕ := 3

/-- const float BEACON_POSITIONS[3][2]. -/
noncomputable def BEACON_POSITIONS : Fin 3 → ℝ × ℝ :=
  ![(0, 1), (-0.75, 0), (0.75, 0)]

/-- const float RSSI_AT_1M = -65.37. -/
noncomputable def RSSI_AT_1M : ℝ := -65.37

/-- const float PATH_LOSS_EXPONENT = 2.68. -/
noncomputable def PATH_LOSS_EXPONENT : ℝ := 2.68

/-- float ALPHA = 0.4 (position smoothing factor). -/
noncomputable def ALPHA : ℝ := 0.4

/-- d[i] = pow(10.0, (RSSI_AT_1M - rssi[i]) / (10 * PATH_LOSS_EXPONENT))
from updateLocalisation. -/
noncomputable def rssiToDistance (rssi : ℝ) : ℝ :=
  (10 : ℝ) ^ ((RSSI_AT_1M - rssi) / (10 * PATH_LOSS_EXPONENT))

/-- weights[i] = 1.0 / (d[i] * d[i] + 1e-6) from trilateration. -/
noncomputable def triWeight (d : Fin 3 → ℝ) (i : Fin 3) : ℝ :=
  1 / (d i * d i + 1e-6)

/-- One iteration of the gradient-descent loop of trilateration:
accumulate the weighted range-error gradient over the three beacons and
step the guess by the fixed learning rate 0.1. -/
noncomputable def triStep (d : Fin 3 → ℝ) (p : ℝ × ℝ) : ℝ × ℝ :=
  let gradX := ∑ i, (
    let dx := p.1 - (BEACON_POSITIONS i).1
    let dy := p.2 - (BEACON_POSITIONS i).2
    let ri0 := Real.sqrt (dx * dx + dy * dy)
    let ri := if ri0 < 1e-6 then 1e-6 else ri0
    triWeight d i * (ri - d i) * (dx / ri))
  let gradY := ∑ i, (
    let dx := p.1 - (BEACON_POSITIONS i).1
    let dy := p.2 - (BEACON_POSITIONS i).2
    let ri0 := Real.sqrt (dx * dx + dy * dy)
    let ri := if ri0 < 1e-6 then 1e-6 else ri0
    triWeight d i * (ri - d i) * (dy / ri))
  (p.1 - 0.1 * gradX, p.2 - 0.1 * gradY)

/-- trilateration (part_009): ten gradient-descent iterations from the
initial guess (0.0, 0.3). -/
noncomputable def trilateration (d : Fin 3 → ℝ) : ℝ × ℝ :=
  (triStep d)^[10] (0, 0.3)

/-- The residual computed after the descent: root-sum-square of the
per-beacon range errors at the converged point. -/
noncomputable def triResidual (d : Fin 3 → ℝ) : ℝ :=
  let p := trilateration d
  Real.sqrt (∑ i, (
    let dx := p.1 - (BEACON_POSITIONS i).1
    let dy := p.2 - (BEACON_POSITIONS i).2
    (Real.sqrt (dx * dx + dy * dy) - d i) ^ 2))

/-- confidence = max(0, min(1, 1 - residual / maxResidual)) with
maxResidual = 1.5, from updateLocalisation. -/
noncomputable def solveConfidence (d : Fin 3 → ℝ) : ℝ :=
  max 0 (min 1 (1 - triResidual d / 1.5))

/-- Arduino map(x, in_min, in_max, out_min, out_max) on long operands:
(x - in_min) * (out_max - out_min) / (in_max - in_min) + out_min with C
truncating division. -/
def arduinoMap (x inMin inMax outMin outMax : ℤ) : ℤ :=
  Int.tdiv ((x - inMin) * (outMax - outMin)) (inMax - inMin) + outMin

/-- One coordinate of sendPosition (part_009 lines 127..136): the float
coordinate is implicitly converted to long (truncation toward zero) when
passed to map, and the result is stored into a uint8_t (reduction
modulo 256).  POSITION_RANGE is [-2, 2] on both axes. -/
noncomputable def sendPositionByte (x : ℝ) : ℕ :=
  ((arduinoMap (cLong x) (-2) 2 0 255) % 256).toNat

/-- sendPosition: the pair of uint8_t values handed to
Comms::update_position. -/
noncomputable def sendPosition (x y : ℝ) : ℕ × ℕ :=
  (sendPositionByte x, sendPositionByte y)

/-- The readiness gate loop of updateLocalisation: ready stays true iff
no beacon has a zero valid-entry count. -/
def localisationReady (bufs : Fin 3 → BeaconBuf) : Bool :=
  decide (∀ i : Fin 3, (bufs i).count ≠ 0)

/-- Result of one updateLocalisation call: whether the solve ran, the
new smoothed position, and the position bytes sent to the packet state
(none when the call returned early). -/
structure LocalisationResult where
  ranSolve : Bool
  smoothed : Option (ℝ × ℝ)
  sent : Option (ℕ × ℕ)

/-- updateLocalisation (part_009 lines 182..248), scan/poll input
elided: the beacon buffers hold whatever the discovery callback has
recorded so far.  If any beacon count is zero the function returns
early, leaving smoothedX/smoothedY untouched; otherwise it converts the
averaged RSSI values to distances, runs the gradient-descent solve,
applies exponential smoothing (direct initialisation on the first fix),
and sends the quantized position. -/
noncomputable def updateLocalisation (bufs : Fin 3 → BeaconBuf)
    (sm : Option (ℝ × ℝ)) : LocalisationResult :=
  if localisationReady bufs then
    let rssi : Fin 3 → ℝ := fun i => ((avgRSSI (bufs i) : ℚ) : ℝ)
    let d : Fin 3 → ℝ := fun i => rssiToDistance (rssi i)
    let p := trilateration d
    let sm' : ℝ × ℝ :=
      match sm with
      | none => p
      | some q => (ALPHA * p.1 + (1 - ALPHA) * q.1,
                   ALPHA * p.2 + (1 - ALPHA) * q.2)
    { ranSolve := true, smoothed := some sm',
      sent := some (sendPosition sm'.1 sm'.2) }
  else
    { ranSolve := false, smoothed := sm, sent := none }

/-- C1: over buffer states reachable by record sequences, the
trilateration update runs its solve iff every beacon has at least one
recorded sample, and whenever some beacon has zero samples it returns
early with the smoothed position estimate exactly unchanged. -/
theorem C1_readiness_gate (ins : Fin 3 → List ℤ) (sm : Option (ℝ × ℝ)) :
    ((updateLocalisation (fun i => recordList (ins i)) sm).ranSolve = true
      ↔ ∀ i : Fin 3, ins i ≠ []) ∧
    ((∃ i : Fin 3, ins i = []) →
      (updateLocalisation (fun i => recordList (ins i)) sm).smoothed = sm) := by
  have hc : ∀ xs : List ℤ, ((recordList xs).count ≠ 0 ↔ xs ≠ []) := by
    intro xs
    rw [recordList_count]
    constructor
    · intro h hnil
      subst hnil
      simp [windowSize] at h
    · intro h
      have hl : xs.length ≠ 0 := fun h0 => h (List.eq_nil_of_length_eq_zero h0)
      simp only [windowSize]
      omega
  have hiff : localisationReady (fun i => recordList (ins i)) = true
      ↔ ∀ i : Fin 3, ins i ≠ [] := by
    unfold localisationReady
    rw [decide_eq_true_eq]
    exact ⟨fun h i => (hc _).mp (h i), fun h i => (hc _).mpr (h i)⟩
  have hran : (updateLocalisation (fun i => recordList (ins i)) sm).ranSolve
      = localisationReady (fun i => recordList (ins i)) := by
    unfold updateLocalisation
    by_cases h : localisationReady (fun i => recordList (ins i)) = true <;>
      simp [h]
  refine ⟨by rw [hran]; exact hiff, ?_⟩
  rintro ⟨i, hi⟩
  have hnr : localisationReady (fun i => recordList (ins i)) = false := by
    rcases Bool.eq_false_or_eq_true (localisationReady (fun i => recordList (ins i)))
      with h | h
    · exact absurd hi ((hiff.mp h) i)
    · exact h
  simp [updateLocalisation, hnr]

/-- Witness for C1 at a concrete input: with beacon 0 empty the update
leaves the smoothed estimate untouched. -/
theorem C1_readiness_gate_witness :
    (updateLocalisation
      (fun i => recordList (![([] : List ℤ), [-50], [-60]] i))
      (some (1, 2))).smoothed = some (1, 2) :=
  (C1_readiness_gate ![[], [-50], [-60]] (some (1, 2))).2 ⟨0, rfl⟩

/-! ## Radio Duty-Cycle Scheduler (BluetoothManager.cpp and part_010)

swapClientServer keeps two statics, scanning and lastSwap, and returns
early while lastSwap + SWAP_INTERVAL > now; the sum is computed in
uint32_t arithmetic, so it is reduced modulo 2^32.  The radio calls on
each branch are modelled as an emitted action list.  SWAP_INTERVAL is
1000 in BluetoothManager.cpp and 500 in part_010; it is a parameter
here. -/

/-- The radio-facing calls made by a swapClientServer branch. -/
inductive RadioAct
  | stopAdvertise
  | startScan
  | stopScan
  | runLocalisation
  | advertise
deriving DecidableEq

/-- The static state of BLEManager: bool scanning, uint32_t lastSwap. -/
structure BLEState where
  scanning : Bool
  lastSwap : ℕ
deriving DecidableEq

/-- Static initialisers: scanning = false, lastSwap = 0. -/
def BLEState.start : BLEState := ⟨false, 0⟩

/-- swapClientServer, with now the current millis() value (a uint32_t):
return unchanged while lastSwap + SWAP_INTERVAL > now (uint32_t sum),
else flip the role, perform the branch radio work, and record now in
lastSwap. -/
def swapClientServer (swapInterval : ℕ) (s : BLEState) (now : ℕ) :
    BLEState × List RadioAct :=
  if now < (s.lastSwap + swapInterval) % 2 ^ 32 then (s, [])
  else if s.scanning = false then
    (⟨true, now⟩, [RadioAct.stopAdvertise, RadioAct.startScan])
  else
    (⟨false, now⟩, [RadioAct.stopScan, RadioAct.runLocalisation,
      RadioAct.advertise])

/-- C2 counterexample: near the 32-bit millis wraparound the dwell guard
overflows and the role is flipped again only 50 ms after the previous
role change, with SWAP_INTERVAL = 1000. -/
theorem C2_dwell_wraparound_counterexample :
    (swapClientServer 1000 BLEState.start (2 ^ 32 - 100)).1
      = ⟨true, 2 ^ 32 - 100⟩ ∧
    (swapClientServer 1000 ⟨true, 2 ^ 32 - 100⟩ (2 ^ 32 - 50)).1.scanning
      = false ∧
    (2 ^ 32 - 50) - (2 ^ 32 - 100) < 1000 := by
  decide

/-- C2 amended: as long as the previous change time plus the dwell does
not overflow the 32-bit clock, a tick strictly inside the dwell window
returns with the state unchanged and without touching the radio. -/
theorem C2_dwell_respected (swapInterval : ℕ) (s : BLEState) (now : ℕ)
    (hnw : s.lastSwap + swapInterval < 2 ^ 32)
    (hin : now < s.lastSwap + swapInterval) :
    swapClientServer swapInterval s now = (s, []) := by
  unfold swapClientServer
  rw [Nat.mod_eq_of_lt hnw, if_pos hin]

/-- Witness for the amended C2 at concrete values inside the dwell
window. -/
theorem C2_dwell_respected_witness :
    swapClientServer 1000 ⟨true, 5000⟩ 5500 = (⟨true, 5000⟩, []) :=
  C2_dwell_respected 1000 ⟨true, 5000⟩ 5500 (by norm_num) (by norm_num)

/-! ## Locomotion Controller motor state (part_007)

The two motor pins and the two saved-state statics of stopMotors and
resumeMotors. -/

/-- Digital state of the two motor pins together with the two statics
leftState/rightState that stopMotors saves into. -/
structure MotorState where
  motorLeft : Bool
  motorRight : Bool
  leftState : Bool
  rightState : Bool
deriving DecidableEq

/-- Startup state: pins low, saved states false. -/
def MotorState.start : MotorState := ⟨false, false, false, false⟩

/-- moveForward: both pins high. -/
def moveForward (s : MotorState) : MotorState :=
  { s with motorRight := true, motorLeft := true }

/-- turnLeft: right pin high, left pin low. -/
def turnLeft (s : MotorState) : MotorState :=
  { s with motorRight := true, motorLeft := false }

/-- turnRight: right pin low, left pin high. -/
def turnRight (s : MotorState) : MotorState :=
  { s with motorRight := false, motorLeft := true }

/-- stopMotors (part_007 lines 113..121): read the two pins into the
saved statics, then drive both pins low. -/
def stopMotors (s : MotorState) : MotorState :=
  { s with
      leftState := s.motorLeft
      rightState := s.motorRight
      motorRight := false
      motorLeft := false }

/-- resumeMotors (part_007 lines 123..128): write the saved statics back
to the pins. -/
def resumeMotors (s : MotorState) : MotorState :=
  { s with motorRight := s.rightState, motorLeft := s.leftState }

/-- C5 counterexample: from a moving-forward state, stopping twice and
resuming once leaves both motors off instead of restoring the pre-pause
outputs. -/
theorem C5_double_stop_counterexample :
    (moveForward MotorState.start).motorLeft = true ∧
    (moveForward MotorState.start).motorRight = true ∧
    (resumeMotors (stopMotors (stopMotors (moveForward MotorState.start)))).motorLeft
      = false ∧
    (resumeMotors (stopMotors (stopMotors (moveForward MotorState.start)))).motorRight
      = false := by
  decide

/-- C5 amended: a single stopMotors then resumeMotors restores exactly
the directional outputs in effect at the moment of pausing; but the
saved state is a single slot that a second stopMotors overwrites with
the already-stopped outputs, so stopping twice and resuming once always
leaves both motors off. -/
theorem C5_pause_resume (s : MotorState) :
    (resumeMotors (stopMotors s)).motorLeft = s.motorLeft ∧
    (resumeMotors (stopMotors s)).motorRight = s.motorRight ∧
    (resumeMotors (stopMotors (stopMotors s))).motorLeft = false ∧
    (resumeMotors (stopMotors (stopMotors s))).motorRight = false :=
  ⟨rfl, rfl, rfl, rfl⟩

/-! ## Sound Sampling Coordinator (BluetoothManager.h lines 20..141)

updateSoundLevel: gated on SAMPLE_MILLIS, stops the motors, resumes the
microphone, polls record_ready with a 500 ms timeout; on timeout it
pauses the microphone and returns; on completion it pauses the
microphone, resumes the motors, averages absolute amplitudes and sends
the constrained value to the packet state.  The capture outcome (the
ready flag and the recorded int16_t samples) is an explicit input; the
delay() calls and the Serial prints are not modelled. -/

/-- Number of samples to capture. -/
def SAMPLES : ℕ := 800

/-- How often to sample. -/
def SAMPLE_MILLIS : ℕ := 2000

/-- Whether the ready flag was seen within the 500 ms wait, and if so
which samples the capture callback left in recording_buf. -/
inductive CaptureOutcome
  | timeout
  | captured (buf : ℕ → ℤ)

/-- The externally visible calls updateSoundLevel makes, in order. -/
inductive SoundAct
  | stopMotorsAct
  | micResume
  | micPause
  | resumeMotorsAct
  | updateSound (level : ℕ)
deriving DecidableEq

/-- Arduino constrain(x, a, b) on integer operands. -/
def cConstrain (x a b : ℤ) : ℤ :=
  if x < a then a else if x > b then b else x

/-- updateSoundLevel: returns the new lastSample static and the list of
emitted calls.  The uint32_t difference millis() - lastSample is taken
with now greater or equal lastSample (monotone clock, no wraparound in
a 2 s window). -/
def updateSoundLevel (lastSample : ℕ) (now : ℕ) (outcome : CaptureOutcome) :
    ℕ × List SoundAct :=
  if now - lastSample < SAMPLE_MILLIS then (lastSample, [])
  else
    match outcome with
    | CaptureOutcome.timeout =>
        (now, [SoundAct.stopMotorsAct, SoundAct.micResume, SoundAct.micPause])
    | CaptureOutcome.captured buf =>
        let sum : ℤ := ∑ i ∈ Finset.range SAMPLES, |buf i|
        let average : ℕ := (cConstrain (Int.tdiv sum SAMPLES) 0 255).toNat
        (now, [SoundAct.stopMotorsAct, SoundAct.micResume, SoundAct.micPause,
          SoundAct.resumeMotorsAct, SoundAct.updateSound average])

/-- C4: on a capture timeout the coordinator pauses the microphone and
returns early: the motors are never resumed and no sound value is
emitted, while a completed capture does resume the motors and emit a
value.  This evaluates the code at the failing input of the claim. -/
theorem C4_timeout_skips_resume :
    (updateSoundLevel 0 2000 CaptureOutcome.timeout).2
      = [SoundAct.stopMotorsAct, SoundAct.micResume, SoundAct.micPause] ∧
    SoundAct.resumeMotorsAct ∉ (updateSoundLevel 0 2000 CaptureOutcome.timeout).2 ∧
    (∀ v : ℕ, SoundAct.updateSound v ∉
      (updateSoundLevel 0 2000 CaptureOutcome.timeout).2) ∧
    (updateSoundLevel 0 2000 (CaptureOutcome.captured (fun _ => 0))).2
      = [SoundAct.stopMotorsAct, SoundAct.micResume, SoundAct.micPause,
        SoundAct.resumeMotorsAct, SoundAct.updateSound 0] := by
  refine ⟨rfl, by decide, ?_, ?_⟩
  · intro v
    simp [updateSoundLevel, SAMPLE_MILLIS]
  · simp [updateSoundLevel, SAMPLE_MILLIS, cConstrain]

/-! ## State Packet Encoder

Two variants exist in the repository: Communication.cpp keeps the
6-byte packet (marker, X, Y, battery, sound) and its advertiseBLE does
pos_x++ before rebuilding; part_004 keeps the 7-byte packet (marker, X,
Y, heading, battery, sound) and mutates nothing.  Stored fields are
uint8_t; the increment wraps modulo 256. -/

/-- The static packet fields of Communication.cpp: pos_x, pos_y,
battery_level, sound_level. -/
structure CommsState where
  pos_x : ℕ
  pos_y : ℕ
  battery_level : ℕ
  sound_level : ℕ
deriving DecidableEq

/-- setupCommunication initial values (Communication.cpp). -/
def setupCommunication : CommsState := ⟨0, 0, 255, 0⟩

/-- create_manuf_data_packet (Communication.cpp lines 14..24): the six
bytes 0xFF, 0xFF, X, Y, battery, sound from the stored fields. -/
def create_manuf_data_packet (s : CommsState) : List ℕ :=
  [0xFF, 0xFF, s.pos_x, s.pos_y, s.battery_level, s.sound_level]

/-- advertiseBLE (Communication.cpp lines 44..58): increments pos_x
(uint8_t, so modulo 256), then rebuilds and hands over the packet. -/
def advertiseBLE (s : CommsState) : CommsState × List ℕ :=
  let s' := { s with pos_x := (s.pos_x + 1) % 256 }
  (s', create_manuf_data_packet s')

/-- update_position (Communication.cpp): store the two position
bytes. -/
def update_position (s : CommsState) (x y : ℕ) : CommsState :=
  { s with pos_x := x, pos_y := y }

/-- k repeated advertiseBLE calls with no intervening updates. -/
def advertiseIter (k : ℕ) (s : CommsState) : CommsState :=
  (fun st => (advertiseBLE st).1)^[k] s

/-- The static packet fields of part_004 (namespace Comms), including
the heading byte. -/
structure Comms7State where
  pos_x : ℕ
  pos_y : ℕ
  heading : ℕ
  battery_level : ℕ
  sound_level : ℕ
deriving DecidableEq

/-- create_manuf_data_packet (part_004 lines 19..30): the seven bytes
0xFF, 0xFF, X, Y, heading, battery, sound from the stored fields. -/
def create_manuf_data_packet7 (s : Comms7State) : List ℕ :=
  [0xFF, 0xFF, s.pos_x, s.pos_y, s.heading, s.battery_level, s.sound_level]

/-- advertiseBLE (part_004): rebuilds the packet from the stored fields
and mutates nothing. -/
def advertiseBLE7 (s : Comms7State) : Comms7State × List ℕ :=
  (s, create_manuf_data_packet7 s)

/-- Repeated 6-byte advertiseBLE calls: pos_x advances by one per call
modulo 256 and no other stored field changes. -/
theorem advertiseIter_fields (s : CommsState) (hx : s.pos_x < 256) (k : ℕ) :
    (advertiseIter k s).pos_x = (s.pos_x + k) % 256 ∧
    (advertiseIter k s).pos_y = s.pos_y ∧
    (advertiseIter k s).battery_level = s.battery_level ∧
    (advertiseIter k s).sound_level = s.sound_level := by
  induction k with
  | zero =>
    simp [advertiseIter, Nat.mod_eq_of_lt hx]
  | succ k ih =>
    obtain ⟨ih1, ih2, ih3, ih4⟩ := ih
    have hstep : advertiseIter (k + 1) s
        = (advertiseBLE (advertiseIter k s)).1 := by
      unfold advertiseIter
      rw [Function.iterate_succ_apply']
    rw [hstep]
    unfold advertiseBLE
    refine ⟨?_, ih2, ih3, ih4⟩
    simp only [ih1]
    omega

/-- C6 counterexample: after storing position X = 5, one advertiseBLE
call advertises X byte 6 and leaves the stored X at 6; the packet byte
does not equal the most recently stored X. -/
theorem C6_advertise_increments_posx :
    (advertiseBLE (update_position setupCommunication 5 7)).2
      = [255, 255, 6, 7, 255, 0] ∧
    (advertiseBLE (update_position setupCommunication 5 7)).1.pos_x = 6 ∧
    (6 : ℕ) ≠ 5 := by
  decide

/-- C6 amended: building the packet recomputes every byte from the
stored fields (marker 0xFF 0xFF, X, Y, optional heading, battery,
sound); the 7-byte encoder of part_004 mutates nothing, but the 6-byte
advertiseBLE of Communication.cpp first increments the stored X modulo
256, so after k advertise calls the X byte is the stored X plus k
(mod 256) while Y, battery and sound are untouched. -/
theorem C6_packet_rebuild (s : CommsState) (t : Comms7State) (k : ℕ)
    (hx : s.pos_x < 256) :
    (advertiseBLE s).2 = [255, 255, (s.pos_x + 1) % 256, s.pos_y,
      s.battery_level, s.sound_level] ∧
    (advertiseBLE s).1.pos_y = s.pos_y ∧
    (advertiseBLE s).1.battery_level = s.battery_level ∧
    (advertiseBLE s).1.sound_level = s.sound_level ∧
    (advertiseIter k s).pos_x = (s.pos_x + k) % 256 ∧
    (advertiseIter k s).pos_y = s.pos_y ∧
    advertiseBLE7 t = (t, [255, 255, t.pos_x, t.pos_y, t.heading,
      t.battery_level, t.sound_level]) := by
  obtain ⟨h1, h2, h3, h4⟩ := advertiseIter_fields s hx k
  exact ⟨rfl, rfl, rfl, rfl, h1, h2, rfl⟩

/-- Witness for the amended C6 at concrete values. -/
theorem C6_packet_rebuild_witness :
    (advertiseIter 3 ⟨5, 7, 255, 0⟩).pos_x = (5 + 3) % 256 :=
  (C6_packet_rebuild ⟨5, 7, 255, 0⟩ ⟨1, 2, 3, 4, 5⟩ 3 (by norm_num)).2.2.2.2.1

/-! ## Packet position quantization round trip (claim C7)

sendPositionByte (defined above with updateLocalisation) models
sendPosition of part_009: the float coordinate is implicitly converted
to long before the integer Arduino map, destroying the fractional
part. -/

/-- Modelled from the claim: the inverse quantization map of the 0..255
linear encoding over the [-2, 2] range, b maps to b * 4 / 255 - 2. -/
noncomputable def inverseQuant (b : ℕ) : ℝ := (b : ℝ) * 4 / 255 - 2

/-- C7: at position x = 0.5 the encoder truncates the coordinate to the
integer 0 before the linear map, producing byte 127, whose decoding
differs from 0.5 by about 0.508, far above the claimed bound 4/255. -/
theorem C7_roundtrip_error_exceeds_bound :
    sendPositionByte (1/2 : ℝ) = 127 ∧
    4 / 255 < |inverseQuant 127 - (1/2 : ℝ)| := by
  constructor
  · have h0 : cLong (1/2 : ℝ) = 0 := by
      unfold cLong
      rw [if_pos (by norm_num)]
      norm_num
    unfold sendPositionByte
    rw [h0]
    decide
  · have h1 : inverseQuant 127 - (1/2 : ℝ) = -(259 / 510) := by
      unfold inverseQuant
      norm_num
    rw [h1, abs_neg, abs_of_pos (by norm_num)]
    norm_num

/-! ## Heading Estimator calibration (CompassModule.cpp and Calibration.cpp)

Both calibration routines sweep raw magnetometer samples, track per-axis
extrema, and derive per-axis offsets and scales.  CompassModule starts
the extrema at +-32767 and skips all-zero triples; Calibration.cpp
starts at +-9999 and filters nothing.  The derived formulas differ from
the specification: CompassModule uses maxDelta/delta (normalisation to
the widest axis, half-ranges), Calibration.cpp uses 2/(max-min). -/

/-- Per-axis minima and maxima tracked during a calibration sweep. -/
structure MagExtrema where
  minX : ℚ
  maxX : ℚ
  minY : ℚ
  maxY : ℚ
  minZ : ℚ
  maxZ : ℚ
deriving DecidableEq

/-- Per-axis offset and scale produced by a calibration routine. -/
structure CalibData where
  offsetX : ℚ
  offsetY : ℚ
  offsetZ : ℚ
  scaleX : ℚ
  scaleY : ℚ
  scaleZ : ℚ
deriving DecidableEq

/-- One loop iteration of CompassModule::calibrate: all-zero readings
are skipped, otherwise each axis extremum is updated. -/
def compassSweepStep (s : MagExtrema) (v : ℚ × ℚ × ℚ) : MagExtrema :=
  if v.1 = 0 ∧ v.2.1 = 0 ∧ v.2.2 = 0 then s
  else
    ⟨min s.minX v.1, max s.maxX v.1, min s.minY v.2.1, max s.maxY v.2.1,
      min s.minZ v.2.2, max s.maxZ v.2.2⟩

/-- The extrema sweep of CompassModule::calibrate, sentinels +-32767. -/
def compassSweep (samples : List (ℚ × ℚ × ℚ)) : MagExtrema :=
  samples.foldl compassSweepStep ⟨32767, -32767, 32767, -32767, 32767, -32767⟩

/-- CompassModule::calibrate (CompassModule.cpp lines 114..133 for the
formula part): offset = (max+min)/2 per axis; delta = (max-min)/2 per
axis; scale = maxDelta/delta with degenerate axes defaulted to 1. -/
def compassCalibrate (samples : List (ℚ × ℚ × ℚ)) : CalibData :=
  let s := compassSweep samples
  let dX := (s.maxX - s.minX) / 2
  let dY := (s.maxY - s.minY) / 2
  let dZ := (s.maxZ - s.minZ) / 2
  let maxDelta := max (max dX dY) dZ
  ⟨(s.maxX + s.minX) / 2, (s.maxY + s.minY) / 2, (s.maxZ + s.minZ) / 2,
    if dX = 0 then 1 else maxDelta / dX,
    if dY = 0 then 1 else maxDelta / dY,
    if dZ = 0 then 1 else maxDelta / dZ⟩

/-- One loop iteration of calibrateMagnetometer (Calibration.cpp): no
filtering, each axis extremum is updated. -/
def magSweepStep (s : MagExtrema) (v : ℚ × ℚ × ℚ) : MagExtrema :=
  ⟨min s.minX v.1, max s.maxX v.1, min s.minY v.2.1, max s.maxY v.2.1,
    min s.minZ v.2.2, max s.maxZ v.2.2⟩

/-- The extrema sweep of calibrateMagnetometer, sentinels +-9999. -/
def magSweep (samples : List (ℚ × ℚ × ℚ)) : MagExtrema :=
  samples.foldl magSweepStep ⟨9999, -9999, 9999, -9999, 9999, -9999⟩

/-- calibrateMagnetometer (Calibration.cpp lines 46..51 for the formula
part): offset = (max+min)/2 and scale = 2/(max-min) per axis, with no
degenerate-range guard. -/
def calibrateMagnetometer (samples : List (ℚ × ℚ × ℚ)) : CalibData :=
  let s := magSweep samples
  ⟨(s.maxX + s.minX) / 2, (s.maxY + s.minY) / 2, (s.maxZ + s.minZ) / 2,
    2 / (s.maxX - s.minX), 2 / (s.maxY - s.minY), 2 / (s.maxZ - s.minZ)⟩

/-- Modelled from the claim: scale = 1/(max-min) per axis, with an axis
of zero range defaulting to 1. -/
def specScale (mn mx : ℚ) : ℚ := if mx = mn then 1 else 1 / (mx - mn)

/-- C8 counterexample: a sweep realising extrema (-1, 3) on X, (-2, 2)
on Y and (1, 1) on Z gives scaleX = 1 in CompassModule::calibrate and
scaleX = 1/2 in calibrateMagnetometer, while the claimed formula
1/(max-min) gives 1/4. -/
theorem C8_scale_formula_counterexample :
    (compassCalibrate [(-1, -2, 1), (3, 2, 1)]).scaleX = 1 ∧
    (calibrateMagnetometer [(-1, -2, 1), (3, 2, 1)]).scaleX = 1/2 ∧
    specScale (-1) 3 = 1/4 ∧
    (compassCalibrate [(-1, -2, 1), (3, 2, 1)]).scaleX ≠ specScale (-1) 3 ∧
    (calibrateMagnetometer [(-1, -2, 1), (3, 2, 1)]).scaleX ≠ specScale (-1) 3 := by
  refine ⟨?_, ?_, ?_, ?_, ?_⟩ <;>
    norm_num [compassCalibrate, compassSweep, compassSweepStep,
      calibrateMagnetometer, magSweep, magSweepStep, specScale, List.foldl]

/-- A two-sample CompassModule sweep realises the prescribed per-axis
extrema, provided the samples are inside the sentinel range and neither
sample is the all-zero triple. -/
theorem compassSweep_two (a b c d e f : ℚ)
    (hx : a ≤ b) (hy : c ≤ d) (hz : e ≤ f)
    (ha : |a| ≤ 9999) (hb : |b| ≤ 9999) (hc : |c| ≤ 9999) (hd : |d| ≤ 9999)
    (he : |e| ≤ 9999) (hf : |f| ≤ 9999)
    (h0a : ¬(a = 0 ∧ c = 0 ∧ e = 0)) (h0b : ¬(b = 0 ∧ d = 0 ∧ f = 0)) :
    compassSweep [(a, c, e), (b, d, f)] = ⟨a, b, c, d, e, f⟩ := by
  obtain ⟨ha1, ha2⟩ := abs_le.mp ha
  obtain ⟨hb1, hb2⟩ := abs_le.mp hb
  obtain ⟨hc1, hc2⟩ := abs_le.mp hc
  obtain ⟨hd1, hd2⟩ := abs_le.mp hd
  obtain ⟨he1, he2⟩ := abs_le.mp he
  obtain ⟨hf1, hf2⟩ := abs_le.mp hf
  have h1 : compassSweepStep ⟨32767, -32767, 32767, -32767, 32767, -32767⟩
      (a, c, e) = ⟨a, a, c, c, e, e⟩ := by
    unfold compassSweepStep
    rw [if_neg h0a]
    simp only
    rw [min_eq_right (by linarith), max_eq_right (by linarith),
      min_eq_right (by linarith), max_eq_right (by linarith),
      min_eq_right (by linarith), max_eq_right (by linarith)]
  have h2 : compassSweepStep ⟨a, a, c, c, e, e⟩ (b, d, f)
      = ⟨a, b, c, d, e, f⟩ := by
    unfold compassSweepStep
    rw [if_neg h0b]
    simp only
    rw [min_eq_left hx, max_eq_right hx, min_eq_left hy, max_eq_right hy,
      min_eq_left hz, max_eq_right hz]
  unfold compassSweep
  simp only [List.foldl]
  rw [h1, h2]

/-- A two-sample calibrateMagnetometer sweep realises the prescribed
per-axis extrema, provided the samples are inside the sentinel range. -/
theorem magSweep_two (a b c d e f : ℚ)
    (hx : a ≤ b) (hy : c ≤ d) (hz : e ≤ f)
    (ha : |a| ≤ 9999) (hb : |b| ≤ 9999) (hc : |c| ≤ 9999) (hd : |d| ≤ 9999)
    (he : |e| ≤ 9999) (hf : |f| ≤ 9999) :
    magSweep [(a, c, e), (b, d, f)] = ⟨a, b, c, d, e, f⟩ := by
  obtain ⟨ha1, ha2⟩ := abs_le.mp ha
  obtain ⟨hb1, hb2⟩ := abs_le.mp hb
  obtain ⟨hc1, hc2⟩ := abs_le.mp hc
  obtain ⟨hd1, hd2⟩ := abs_le.mp hd
  obtain ⟨he1, he2⟩ := abs_le.mp he
  obtain ⟨hf1, hf2⟩ := abs_le.mp hf
  have h1 : magSweepStep ⟨9999, -9999, 9999, -9999, 9999, -9999⟩ (a, c, e)
      = ⟨a, a, c, c, e, e⟩ := by
    unfold magSweepStep
    simp only
    rw [min_eq_right (by linarith), max_eq_right (by linarith),
      min_eq_right (by linarith), max_eq_right (by linarith),
      min_eq_right (by linarith), max_eq_right (by linarith)]
  have h2 : magSweepStep ⟨a, a, c, c, e, e⟩ (b, d, f) = ⟨a, b, c, d, e, f⟩ := by
    unfold magSweepStep
    simp only
    rw [min_eq_left hx, max_eq_right hx, min_eq_left hy, max_eq_right hy,
      min_eq_left hz, max_eq_right hz]
  unfold magSweep
  simp only [List.foldl]
  rw [h1, h2]

/-- C8 amended: for every set of per-axis extrema collected during the
sweep, both routines compute offset = (max+min)/2 per axis; the scales
are not 1/(max-min): CompassModule::calibrate computes
maxDelta/deltaAxis over half-ranges delta = (max-min)/2, defaulting
degenerate (zero-range) axes to 1, and calibrateMagnetometer computes
2/(max-min) with no degenerate-range guard. -/
theorem C8_calibration_formulas (a b c d e f : ℚ)
    (hx : a ≤ b) (hy : c ≤ d) (hz : e ≤ f)
    (ha : |a| ≤ 9999) (hb : |b| ≤ 9999) (hc : |c| ≤ 9999) (hd : |d| ≤ 9999)
    (he : |e| ≤ 9999) (hf : |f| ≤ 9999)
    (h0a : ¬(a = 0 ∧ c = 0 ∧ e = 0)) (h0b : ¬(b = 0 ∧ d = 0 ∧ f = 0)) :
    (compassCalibrate [(a, c, e), (b, d, f)]).offsetX = (b + a) / 2 ∧
    (compassCalibrate [(a, c, e), (b, d, f)]).offsetY = (d + c) / 2 ∧
    (compassCalibrate [(a, c, e), (b, d, f)]).offsetZ = (f + e) / 2 ∧
    (compassCalibrate [(a, c, e), (b, d, f)]).scaleX
      = (if (b - a) / 2 = 0 then 1
         else max (max ((b - a) / 2) ((d - c) / 2)) ((f - e) / 2) / ((b - a) / 2)) ∧
    (compassCalibrate [(a, c, e), (b, d, f)]).scaleY
      = (if (d - c) / 2 = 0 then 1
         else max (max ((b - a) / 2) ((d - c) / 2)) ((f - e) / 2) / ((d - c) / 2)) ∧
    (compassCalibrate [(a, c, e), (b, d, f)]).scaleZ
      = (if (f - e) / 2 = 0 then 1
         else max (max ((b - a) / 2) ((d - c) / 2)) ((f - e) / 2) / ((f - e) / 2)) ∧
    (calibrateMagnetometer [(a, c, e), (b, d, f)]).offsetX = (b + a) / 2 ∧
    (calibrateMagnetometer [(a, c, e), (b, d, f)]).offsetY = (d + c) / 2 ∧
    (calibrateMagnetometer [(a, c, e), (b, d, f)]).offsetZ = (f + e) / 2 ∧
    (calibrateMagnetometer [(a, c, e), (b, d, f)]).scaleX = 2 / (b - a) ∧
    (calibrateMagnetometer [(a, c, e), (b, d, f)]).scaleY = 2 / (d - c) ∧
    (calibrateMagnetometer [(a, c, e), (b, d, f)]).scaleZ = 2 / (f - e) := by
  have hs1 := compassSweep_two a b c d e f hx hy hz ha hb hc hd he hf h0a h0b
  have hs2 := magSweep_two a b c d e f hx hy hz ha hb hc hd he hf
  unfold compassCalibrate calibrateMagnetometer
  rw [hs1, hs2]
  exact ⟨rfl, rfl, rfl, rfl, rfl, rfl, rfl, rfl, rfl, rfl, rfl, rfl⟩

/-- Witness for the amended C8 at concrete extrema. -/
theorem C8_calibration_formulas_witness :
    (compassCalibrate [((-1 : ℚ), -2, 1), (3, 2, 1)]).scaleX
      = (if ((3 : ℚ) - -1) / 2 = 0 then 1
         else max (max (((3 : ℚ) - -1) / 2) ((2 - -2) / 2)) ((1 - 1) / 2)
           / ((3 - -1) / 2)) :=
  (C8_calibration_formulas (-1) 3 (-2) 2 1 1 (by norm_num) (by norm_num)
    (by norm_num) (by norm_num) (by norm_num) (by norm_num) (by norm_num)
    (by norm_num) (by norm_num) (by norm_num) (by norm_num)).2.2.2.1

/-! ## Levy-walk interval generator (part_007)

powerLawRandomInterval and levyWalk, with the underlying Arduino random
draws supplied as explicit raw values: random(n) is raw mod n, and
random(lo, hi) is lo + raw mod (hi - lo), giving a value in [lo, hi). -/

/-- Arduino random(n): a draw in [0, n). -/
def arduinoRandomUpper (n : ℕ) (raw : ℕ) : ℕ := raw % n

/-- Arduino random(lo, hi): a draw in [lo, hi). -/
def arduinoRandom (lo hi : ℕ) (raw : ℕ) : ℕ := lo + raw % (hi - lo)

/-- powerLawRandomInterval (part_007 lines 52..57):
u = random(1, 10000) / 10000.0, and
t = t_min * (1 - u + u * (t_min/t_max)^(mu-1)) ^ (1/(1-mu)),
returned as (long)t. -/
noncomputable def powerLawRandomInterval (tmin tmax : ℝ) (mu : ℝ)
    (raw : ℕ) : ℤ :=
  let u : ℝ := (arduinoRandom 1 10000 raw : ℝ) / 10000
  let expo : ℝ := 1 / (1 - mu)
  cLong (tmin * (1 - u + u * (tmin / tmax) ^ (mu - 1)) ^ expo)

/-- The three motor actions levyWalk chooses between. -/
inductive MotorCmd
  | forward
  | left
  | right
deriving DecidableEq

/-- levyWalk (part_007 lines 71..90): with r = random(100), r below 60
moves forward with a power-law interval (mu = 1.5, bounds 500 and
2000 ms); otherwise a left or right turn with interval
random(minWalkTime, 1000). -/
noncomputable def levyWalk (rawAction rawForward rawTurn : ℕ) :
    MotorCmd × ℤ :=
  let r := arduinoRandomUpper 100 rawAction
  if r < 60 then
    (MotorCmd.forward, powerLawRandomInterval 500 2000 1.5 rawForward)
  else if r < 80 then
    (MotorCmd.left, (arduinoRandom 500 1000 rawTurn : ℤ))
  else
    (MotorCmd.right, (arduinoRandom 500 1000 rawTurn : ℤ))

/-- With mu = 1.5 and bounds 500 and 2000, every value of the uniform
draw yields a power-law interval inside [500, 2000]. -/
theorem powerLaw_bounds (raw : ℕ) :
    500 ≤ powerLawRandomInterval 500 2000 1.5 raw ∧
    powerLawRandomInterval 500 2000 1.5 raw ≤ 2000 := by
  have hk1 : 1 ≤ arduinoRandom 1 10000 raw := Nat.le_add_right 1 _
  have hk2 : arduinoRandom 1 10000 raw ≤ 9999 := by
    unfold arduinoRandom
    have := Nat.mod_lt raw (show 0 < 10000 - 1 by norm_num)
    omega
  set u : ℝ := (arduinoRandom 1 10000 raw : ℝ) / 10000 with hu
  have hu1 : (1 : ℝ) / 10000 ≤ u := by
    rw [hu]
    have : (1 : ℝ) ≤ (arduinoRandom 1 10000 raw : ℝ) := by exact_mod_cast hk1
    linarith
  have hu2 : u ≤ 9999 / 10000 := by
    rw [hu]
    have : (arduinoRandom 1 10000 raw : ℝ) ≤ 9999 := by exact_mod_cast hk2
    linarith
  have hval : powerLawRandomInterval 500 2000 1.5 raw
      = cLong ((500 : ℝ) * (1 - u + u * ((500 : ℝ) / 2000) ^ ((1.5 : ℝ) - 1))
          ^ ((1 : ℝ) / (1 - 1.5))) := rfl
  have hhalf : ((500 : ℝ) / 2000) ^ ((1.5 : ℝ) - 1) = 1 / 2 := by
    rw [show (500 : ℝ) / 2000 = 1 / 4 by norm_num,
      show (1.5 : ℝ) - 1 = 1 / 2 by norm_num,
      show (1 : ℝ) / 4 = ((1 : ℝ) / 2) ^ (2 : ℕ) by norm_num,
      ← Real.rpow_natCast ((1 : ℝ) / 2) 2, ← Real.rpow_mul (by norm_num)]
    norm_num
  have hexpo : (1 : ℝ) / (1 - 1.5) = -2 := by norm_num
  have hbpos : (0 : ℝ) < 1 - u / 2 := by linarith
  have hbase : 1 - u + u * ((1 : ℝ) / 2) = 1 - u / 2 := by ring
  have hrpow : (1 - u / 2 : ℝ) ^ (-2 : ℝ) = ((1 - u / 2) ^ 2)⁻¹ := by
    rw [Real.rpow_neg hbpos.le, Real.rpow_two]
  have hsq : (0 : ℝ) < (1 - u / 2) ^ 2 := by positivity
  have ht : (500 : ℝ) * (1 - u + u * ((500 : ℝ) / 2000) ^ ((1.5 : ℝ) - 1))
      ^ ((1 : ℝ) / (1 - 1.5)) = 500 / (1 - u / 2) ^ 2 := by
    rw [hhalf, hexpo, hbase, hrpow]
    ring
  have hlow : (500 : ℝ) ≤ 500 / (1 - u / 2) ^ 2 := by
    rw [le_div_iff₀ hsq]
    nlinarith
  have hhigh : (500 : ℝ) / (1 - u / 2) ^ 2 ≤ 2000 := by
    rw [div_le_iff₀ hsq]
    nlinarith
  have hpos : (0 : ℝ) ≤ 500 / (1 - u / 2) ^ 2 := by positivity
  rw [hval, ht]
  unfold cLong
  rw [if_pos hpos]
  constructor
  · exact Int.le_floor.mpr (by exact_mod_cast hlow)
  · have hfl := (Int.floor_le ((500 : ℝ) / (1 - u / 2) ^ 2)).trans hhigh
    exact_mod_cast hfl

/-- C9: every inter-action interval produced by levyWalk lies within
[500, 2000] for every value of the underlying draws, and the turn
branches draw from [500, 1000). -/
theorem C9_levy_interval_bounds (ra rf rt : ℕ) :
    500 ≤ (levyWalk ra rf rt).2 ∧ (levyWalk ra rf rt).2 ≤ 2000 ∧
    ((levyWalk ra rf rt).1 ≠ MotorCmd.forward →
      500 ≤ (levyWalk ra rf rt).2 ∧ (levyWalk ra rf rt).2 < 1000) := by
  obtain ⟨hp1, hp2⟩ := powerLaw_bounds rf
  have ht1 : (500 : ℤ) ≤ (arduinoRandom 500 1000 rt : ℤ) := by
    unfold arduinoRandom
    push_cast
    omega
  have ht2 : (arduinoRandom 500 1000 rt : ℤ) < 1000 := by
    unfold arduinoRandom
    have := Nat.mod_lt rt (show 0 < 1000 - 500 by norm_num)
    push_cast
    omega
  unfold levyWalk
  by_cases h60 : arduinoRandomUpper 100 ra < 60
  · rw [if_pos h60]
    exact ⟨hp1, hp2, fun hne => absurd rfl hne⟩
  · rw [if_neg h60]
    by_cases h80 : arduinoRandomUpper 100 ra < 80
    · rw [if_pos h80]
      exact ⟨ht1, by omega, fun _ => ⟨ht1, ht2⟩⟩
    · rw [if_neg h80]
      exact ⟨ht1, by omega, fun _ => ⟨ht1, ht2⟩⟩

/-- Witness for C9 at a concrete turn draw: action draw 70 selects a
left turn whose interval respects the turn bounds. -/
theorem C9_levy_interval_bounds_witness :
    500 ≤ (levyWalk 70 0 0).2 ∧ (levyWalk 70 0 0).2 < 1000 :=
  (C9_levy_interval_bounds 70 0 0).2.2
    (by simp [levyWalk, arduinoRandomUpper])

/-! ## Heading quantization (Orientation.cpp and part_004)

displayHeading reads the normalized [0, 360) compass heading, adds 90,
and passes map(heading, 0, 360, 0, 255) to Comms::update_heading; the
float heading is implicitly converted to long in the map call and the
long result is implicitly converted to uint8_t (reduction modulo 256)
at the update_heading parameter. -/

/-- The long value map(heading + 90, 0, 360, 0, 255) computed by
displayHeading (Orientation.cpp lines 47..68). -/
noncomputable def headingMapped (h : ℝ) : ℤ :=
  arduinoMap (cLong (h + 90)) 0 360 0 255

/-- The uint8_t heading byte stored by update_heading (part_004 lines
72..75). -/
noncomputable def headingByte (h : ℝ) : ℕ :=
  (headingMapped h % 256).toNat

/-- C10 counterexample: at raw heading 270 the mapped value is exactly
255, which does not exceed 255 and is stored without truncation. -/
theorem C10_boundary_270 :
    headingMapped (270 : ℝ) = 255 ∧ ¬ (255 < headingMapped (270 : ℝ)) ∧
    headingByte (270 : ℝ) = 255 := by
  have h0 : cLong ((270 : ℝ) + 90) = 360 := by
    unfold cLong
    rw [if_pos (by norm_num)]
    norm_num
  have hm : headingMapped (270 : ℝ) = 255 := by
    unfold headingMapped
    rw [h0]
    decide
  refine ⟨hm, by rw [hm]; decide, ?_⟩
  unfold headingByte
  rw [hm]
  decide

/-- C10 amended: for every raw heading in [272, 360) the mapped value
lies in [256, 318], hence exceeds 255 and is truncated modulo 256 into
the byte range [0, 62]; distinct physical headings (272 and 272.5)
advertise the same heading byte. -/
theorem C10_heading_wrap (h : ℝ) (h1 : 272 ≤ h) (h2 : h < 360) :
    255 < headingMapped h ∧
    headingMapped h ≤ 318 ∧
    headingByte h = (headingMapped h - 256).toNat ∧
    headingByte h ≤ 62 ∧
    headingByte (272 : ℝ) = headingByte (545 / 2 : ℝ) ∧
    (272 : ℝ) ≠ 545 / 2 := by
  have hfl : cLong (h + 90) = ⌊h + 90⌋ := by
    unfold cLong
    rw [if_pos (by linarith)]
  have hn1 : (362 : ℤ) ≤ ⌊h + 90⌋ := Int.le_floor.mpr (by push_cast; linarith)
  have hn2 : ⌊h + 90⌋ ≤ 449 := by
    have : ⌊h + 90⌋ < 450 := Int.floor_lt.mpr (by push_cast; linarith)
    omega
  have hmv : headingMapped h = (⌊h + 90⌋ * 255) / 360 := by
    unfold headingMapped arduinoMap
    rw [hfl, Int.tdiv_eq_ediv (by nlinarith) (by norm_num)]
    norm_num
  have hm1 : (256 : ℤ) ≤ headingMapped h := by
    rw [hmv]
    calc (256 : ℤ) = 92310 / 360 := by decide
    _ ≤ ⌊h + 90⌋ * 255 / 360 := Int.ediv_le_ediv (by norm_num) (by nlinarith)
  have hm2 : headingMapped h ≤ 318 := by
    rw [hmv]
    calc ⌊h + 90⌋ * 255 / 360 ≤ 114495 / 360 :=
      Int.ediv_le_ediv (by norm_num) (by nlinarith)
    _ = 318 := by decide
  have hbyte : headingByte h = (headingMapped h - 256).toNat := by
    unfold headingByte
    have : headingMapped h % 256 = headingMapped h - 256 := by omega
    rw [this]
  have h272 : headingByte (272 : ℝ) = 0 := by
    have hc : cLong ((272 : ℝ) + 90) = 362 := by
      unfold cLong
      rw [if_pos (by norm_num)]
      norm_num
    unfold headingByte headingMapped
    rw [hc]
    decide
  have h2725 : headingByte (545 / 2 : ℝ) = 0 := by
    have hc : cLong ((545 / 2 : ℝ) + 90) = 362 := by
      unfold cLong
      rw [if_pos (by norm_num)]
      norm_num
    unfold headingByte headingMapped
    rw [hc]
    decide
  refine ⟨by omega, hm2, hbyte, by omega, by rw [h272, h2725], by norm_num⟩

/-- Witness for the amended C10 at raw heading 280. -/
theorem C10_heading_wrap_witness : 255 < headingMapped (280 : ℝ) :=
  (C10_heading_wrap 280 (by norm_num) (by norm_num)).1

end BristleBot
